import Mathlib

/-!
Verification of the adaptive chunking/retry executor (Retry.py and Retry2.py)
and of the length-prefixed frame transport (Arrow_client.py).

The executors are embedded as pure Lean functions.  The wrapped remote call is
impure in Python (two calls with the same arguments may behave differently), so
it is modelled as an oracle indexed by a global call counter (the clock): each
invocation of the wrapped function consumes one clock tick, and the executor
threads the clock through its depth-first, left-before-right recursion.  The
returned clock therefore counts exactly how many calls were made.
-/

/-- Python values that occur as arguments and results in the sources:
strings, ordered lists, and string-keyed dictionaries. -/
inductive Value where
  | vstr : String → Value
  | vlist : List Value → Value
  | vdict : List (String × Value) → Value

/-- A Python keyword-argument dictionary: string keys, insertion order kept. -/
abbrev Kwargs := List (String × Value)

/-- Dictionary lookup: the value stored at key k, if the key is present. -/
def kwLookup (kw : Kwargs) (k : String) : Option Value :=
  match kw with
  | [] => none
  | (k2, v) :: rest => if k2 = k then some v else kwLookup rest k

/-- Dictionary assignment: replace the value at key k in place (Python dict
assignment keeps the key position), appending when the key is absent. -/
def kwUpdate (kw : Kwargs) (k : String) (v : Value) : Kwargs :=
  match kw with
  | [] => [(k, v)]
  | (k2, v2) :: rest =>
    if k2 = k then (k, v) :: rest else (k2, v2) :: kwUpdate rest k v

/-- Does the pattern occur at the start of the character list? -/
def listStartsWith : List Char → List Char → Bool
  | [], _ => true
  | _ :: _, [] => false
  | c :: cs, d :: ds => c == d && listStartsWith cs ds

/-- Does the pattern occur as a contiguous run anywhere in the list? -/
def listContains (pat : List Char) : List Char → Bool
  | [] => listStartsWith pat []
  | c :: rest => listStartsWith pat (c :: rest) || listContains pat rest

/-- The classification used by both executors: the lowercased textual
description of the error contains the marker "too big"
(Python: "too big" in str(e).lower()). -/
def isOversized (e : String) : Bool :=
  listContains "too big".toList (e.toList.map Char.toLower)

/-- The value stored at chunk dimension d, when the key is present in kwargs
and its value is a list (Python: chunk_dim in kwargs and
isinstance(kwargs[chunk_dim], list)). -/
def dimItems (kw : Kwargs) (d : String) : Option (List Value) :=
  match kwLookup kw d with
  | some (.vlist items) => some items
  | _ => none

/-- Length of the list held by chunk dimension d, 0 when d does not hold
a list. -/
def dimLen (kw : Kwargs) (d : String) : Nat :=
  match dimItems kw d with
  | some items => items.length
  | none => 0

/-- Midpoint split of Retry.py line 30-36 and Retry2.py line 15-17:
mid = len(items) // 2, halves items[:mid] and items[mid:]. -/
def splitMid (items : List Value) : List Value × List Value :=
  (items.take (items.length / 2), items.drop (items.length / 2))

/-- The split guard of Retry.py line 28: "too big" occurs in the lowered error
text, chunk_dim is present in kwargs as a list, and that list has more than
one element. -/
def splitCondQ (kw : Kwargs) (chunk_dim : String) (e : String) : Bool :=
  isOversized e && decide (1 < dimLen kw chunk_dim)

/-- The dimension-selection loop of Retry2.py lines 11-14: the first chunk
dimension, in declared order, that is present in kwargs as a list of more than
one element while the error is classified oversized; together with its list. -/
def findChunkDim (kw : Kwargs) (e : String) : List String → Option (String × List Value)
  | [] => none
  | d :: rest =>
    match dimItems kw d with
    | some items =>
      if decide (1 < items.length) && isOversized e then some (d, items)
      else findChunkDim kw e rest
    | none => findChunkDim kw e rest

/-! Lemmas about the dictionary operations, needed for the termination
measures of the executors and for the frame properties. -/

theorem kwLookup_kwUpdate_self (kw : Kwargs) (k : String) (v : Value) :
    kwLookup (kwUpdate kw k v) k = some v := by
  induction kw with
  | nil => simp [kwUpdate, kwLookup]
  | cons p rest ih =>
    obtain ⟨k2, v2⟩ := p
    by_cases h : k2 = k
    · simp [kwUpdate, h, kwLookup]
    · simp [kwUpdate, h, kwLookup, ih]

theorem kwLookup_kwUpdate_ne (kw : Kwargs) (k k2 : String) (v : Value)
    (h : k2 ≠ k) : kwLookup (kwUpdate kw k v) k2 = kwLookup kw k2 := by
  have hne : k ≠ k2 := fun h2 => h h2.symm
  induction kw with
  | nil => simp [kwUpdate, kwLookup, hne]
  | cons p rest ih =>
    obtain ⟨k3, v3⟩ := p
    by_cases h3 : k3 = k
    · subst h3
      simp [kwUpdate, kwLookup, hne]
    · simp [kwUpdate, h3, kwLookup, ih]

theorem dimItems_kwUpdate_self (kw : Kwargs) (d : String) (l : List Value) :
    dimItems (kwUpdate kw d (.vlist l)) d = some l := by
  simp [dimItems, kwLookup_kwUpdate_self]

theorem dimItems_kwUpdate_ne (kw : Kwargs) (d d2 : String) (v : Value)
    (h : d2 ≠ d) : dimItems (kwUpdate kw d v) d2 = dimItems kw d2 := by
  simp [dimItems, kwLookup_kwUpdate_ne kw d d2 v h]

theorem dimLen_kwUpdate_self (kw : Kwargs) (d : String) (l : List Value) :
    dimLen (kwUpdate kw d (.vlist l)) d = l.length := by
  simp [dimLen, dimItems_kwUpdate_self]

theorem dimLen_kwUpdate_ne (kw : Kwargs) (d d2 : String) (v : Value)
    (h : d2 ≠ d) : dimLen (kwUpdate kw d v) d2 = dimLen kw d2 := by
  simp [dimLen, dimItems_kwUpdate_ne kw d d2 v h]

theorem splitMid_fst_length (items : List Value) :
    (splitMid items).1.length = items.length / 2 := by
  simp [splitMid]
  omega

theorem splitMid_snd_length (items : List Value) :
    (splitMid items).2.length = items.length - items.length / 2 := by
  simp [splitMid]

theorem splitMid_append (items : List Value) :
    (splitMid items).1 ++ (splitMid items).2 = items := by
  simp [splitMid]

theorem splitCondQ_dimItems (kw : Kwargs) (d e : String)
    (hq : splitCondQ kw d e = true) :
    dimItems kw d = some ((dimItems kw d).getD []) ∧
      1 < ((dimItems kw d).getD []).length := by
  have h2 : 1 < dimLen kw d := by
    simp [splitCondQ] at hq
    exact hq.2
  cases hi : dimItems kw d with
  | none => simp [dimLen, hi] at h2
  | some items =>
    simp [dimLen, hi] at h2
    simp [hi]
    exact h2

theorem splitCondQ_len (kw : Kwargs) (d e : String)
    (hq : splitCondQ kw d e = true) :
    1 < ((dimItems kw d).getD []).length ∧
      dimLen kw d = ((dimItems kw d).getD []).length := by
  have h2 : 1 < dimLen kw d := by
    simp [splitCondQ] at hq
    exact hq.2
  cases hi : dimItems kw d with
  | none => simp [dimLen, hi] at h2
  | some items =>
    simp [dimLen, hi] at h2 ⊢
    exact h2

theorem splitCondQ_oversized (kw : Kwargs) (d e : String)
    (hq : splitCondQ kw d e = true) : isOversized e = true := by
  simp [splitCondQ] at hq
  exact hq.1

/-- Specification of the dimension-selection loop: a returned pair consists of
a declared dimension together with its list value, the list has more than one
element, and the error is classified oversized. -/
theorem findChunkDim_spec (kw : Kwargs) (e : String) (dims : List String)
    (d : String) (items : List Value)
    (h : findChunkDim kw e dims = some (d, items)) :
    d ∈ dims ∧ dimItems kw d = some items ∧ 1 < items.length ∧
      isOversized e = true := by
  induction dims with
  | nil => simp [findChunkDim] at h
  | cons d2 rest ih =>
    rw [findChunkDim] at h
    split at h
    · rename_i items2 hi
      split at h
      · rename_i hc
        simp only [Bool.and_eq_true, decide_eq_true_eq] at hc
        simp only [Option.some.injEq, Prod.mk.injEq] at h
        obtain ⟨h1, h2⟩ := h
        subst h1
        subst h2
        exact ⟨List.mem_cons_self _ _, hi, hc.1, hc.2⟩
      · have := ih h
        exact ⟨List.mem_cons_of_mem _ this.1, this.2⟩
    · have := ih h
      exact ⟨List.mem_cons_of_mem _ this.1, this.2⟩

/-- A non-oversized error never selects a chunk dimension. -/
theorem findChunkDim_not_oversized (kw : Kwargs) (e : String)
    (dims : List String) (h : isOversized e = false) :
    findChunkDim kw e dims = none := by
  induction dims with
  | nil => simp [findChunkDim]
  | cons d rest ih =>
    unfold findChunkDim
    cases hi : dimItems kw d with
    | none => exact ih
    | some items => simp [h, ih]

/-- Sum of the chunk-dimension lengths declared by the policy: the first
component of the termination measure of the Retry2.py executor. -/
def sumLen (kw : Kwargs) (dims : List String) : Nat :=
  (dims.map (dimLen kw)).sum

theorem dimLen_kwUpdate_le (kw : Kwargs) (d : String) (items l : List Value)
    (hi : dimItems kw d = some items) (hl : l.length ≤ items.length)
    (x : String) : dimLen (kwUpdate kw d (.vlist l)) x ≤ dimLen kw x := by
  by_cases hx : x = d
  · subst hx
    rw [dimLen_kwUpdate_self]
    unfold dimLen
    rw [hi]
    exact hl
  · rw [dimLen_kwUpdate_ne kw d x _ hx]

theorem sumLen_kwUpdate_le (kw : Kwargs) (d : String) (items l : List Value)
    (dims : List String)
    (hi : dimItems kw d = some items) (hl : l.length ≤ items.length) :
    sumLen (kwUpdate kw d (.vlist l)) dims ≤ sumLen kw dims := by
  induction dims with
  | nil => simp [sumLen]
  | cons d2 rest ih =>
    simp only [sumLen, List.map_cons, List.sum_cons] at *
    exact Nat.add_le_add (dimLen_kwUpdate_le kw d items l hi hl d2) ih

theorem sumLen_kwUpdate_lt (kw : Kwargs) (d : String) (items l : List Value)
    (dims : List String) (hd : d ∈ dims)
    (hi : dimItems kw d = some items) (hl : l.length < items.length) :
    sumLen (kwUpdate kw d (.vlist l)) dims < sumLen kw dims := by
  induction dims with
  | nil => simp at hd
  | cons d2 rest ih =>
    simp only [sumLen, List.map_cons, List.sum_cons]
    rcases List.mem_cons.mp hd with h2 | h2
    · subst h2
      have hhead : dimLen (kwUpdate kw d (.vlist l)) d < dimLen kw d := by
        rw [dimLen_kwUpdate_self]
        unfold dimLen
        rw [hi]
        exact hl
      have htail := sumLen_kwUpdate_le kw d items l rest hi (Nat.le_of_lt hl)
      simp only [sumLen] at htail
      omega
    · have hhead := dimLen_kwUpdate_le kw d items l hi (Nat.le_of_lt hl) d2
      have htail := ih h2
      simp only [sumLen] at htail
      omega

/-- Arithmetic shape of the termination measure: a strict decrease in the
dimension-length component dominates any change of the retry component, which
is bounded by the retry budget. -/
theorem measure_split_lt (a b x y m : Nat) (hab : a < b) (hx : x ≤ m) :
    a * (m + 1) + x < b * (m + 1) + y :=
  calc a * (m + 1) + x < a * (m + 1) + (m + 1) := by omega
    _ = (a + 1) * (m + 1) := by ring
    _ ≤ b * (m + 1) := Nat.mul_le_mul_right _ hab
    _ ≤ b * (m + 1) + y := Nat.le_add_right _ _

/-- Retry.py lines 21-49, function _attempt_query.  The oracle is the wrapped
query function; the clock indexes its successive invocations.  The returned
number is the clock after the call tree completes, so the difference with the
starting clock counts the calls performed. -/
def attemptQuery (oracle : Nat → List Value → Kwargs → Except String (List Value))
    (args : List Value) (kwargs : Kwargs) (chunk_dim : String)
    (max_retries retries clock : Nat) : Except String (List Value) × Nat :=
  match oracle clock args kwargs with
  | .ok result => (.ok result, clock + 1)
  | .error e =>
    if hq : splitCondQ kwargs chunk_dim e then
      match attemptQuery oracle args
          (kwUpdate kwargs chunk_dim (.vlist (splitMid ((dimItems kwargs chunk_dim).getD [])).1))
          chunk_dim max_retries retries (clock + 1) with
      | (.ok result1, c1) =>
        match attemptQuery oracle args
            (kwUpdate kwargs chunk_dim (.vlist (splitMid ((dimItems kwargs chunk_dim).getD [])).2))
            chunk_dim max_retries retries c1 with
        | (.ok result2, c2) => (.ok (result1 ++ result2), c2)
        | (.error e2, c2) => (.error e2, c2)
      | (.error e1, c1) => (.error e1, c1)
    else if hr : retries < max_retries then
      attemptQuery oracle args kwargs chunk_dim max_retries (retries + 1) (clock + 1)
    else
      (.error e, clock + 1)
termination_by dimLen kwargs chunk_dim * (max_retries + 1) + (max_retries - retries)
decreasing_by
· obtain ⟨hlen, hdl⟩ := splitCondQ_len kwargs chunk_dim e hq
  rw [dimLen_kwUpdate_self, splitMid_fst_length, hdl]
  exact measure_split_lt _ _ _ _ _ (by omega) (Nat.sub_le _ _)
· obtain ⟨hlen, hdl⟩ := splitCondQ_len kwargs chunk_dim e hq
  rw [dimLen_kwUpdate_self, splitMid_snd_length, hdl]
  exact measure_split_lt _ _ _ _ _ (by omega) (Nat.sub_le _ _)
· omega

/-- Retry2.py lines 4-33, function _attempt_q_call.  Identical control flow to
_attempt_query, except that the first qualifying dimension of the declared
priority list chunk_dims is split. -/
def attemptQCall (oracle : Nat → List Value → Kwargs → Except String (List Value))
    (args : List Value) (kwargs : Kwargs) (chunk_dims : List String)
    (max_retries retries clock : Nat) : Except String (List Value) × Nat :=
  match oracle clock args kwargs with
  | .ok result => (.ok result, clock + 1)
  | .error e =>
    match hfind : findChunkDim kwargs e chunk_dims with
    | some (d, items) =>
      match attemptQCall oracle args
          (kwUpdate kwargs d (.vlist (splitMid items).1))
          chunk_dims max_retries retries (clock + 1) with
      | (.ok res1, c1) =>
        match attemptQCall oracle args
            (kwUpdate kwargs d (.vlist (splitMid items).2))
            chunk_dims max_retries retries c1 with
        | (.ok res2, c2) => (.ok (res1 ++ res2), c2)
        | (.error e2, c2) => (.error e2, c2)
      | (.error e1, c1) => (.error e1, c1)
    | none =>
      if hr : retries < max_retries then
        attemptQCall oracle args kwargs chunk_dims max_retries (retries + 1) (clock + 1)
      else
        (.error e, clock + 1)
termination_by sumLen kwargs chunk_dims * (max_retries + 1) + (max_retries - retries)
decreasing_by
· obtain ⟨hd, hi, hlen, _⟩ := findChunkDim_spec kwargs e chunk_dims d items hfind
  apply measure_split_lt _ _ _ _ _ _ (Nat.sub_le _ _)
  apply sumLen_kwUpdate_lt kwargs d items _ chunk_dims hd hi
  rw [splitMid_fst_length]
  omega
· obtain ⟨hd, hi, hlen, _⟩ := findChunkDim_spec kwargs e chunk_dims d items hfind
  apply measure_split_lt _ _ _ _ _ _ (Nat.sub_le _ _)
  apply sumLen_kwUpdate_lt kwargs d items _ chunk_dims hd hi
  rw [splitMid_snd_length]
  omega
· omega

/-! The length-prefixed frame transport of Arrow_client.py, fetch_arrow_table.
The socket input is modelled as the finite byte stream the peer sends before
closing, together with an adversarial fragmentation schedule: the i-th recv
call delivers at most sched i + 1 bytes (always at least one byte when data is
available and at least one byte was requested), never more than requested. -/

/-- The receiving side of an established connection. -/
structure Conn where
  stream : List Nat
  sched : Nat → Nat
  calls : Nat

/-- socket.recv(n): deliver between 1 and n of the remaining bytes, as chosen
by the fragmentation schedule, or the empty chunk when the peer has closed. -/
def recv (c : Conn) (n : Nat) : List Nat × Conn :=
  (c.stream.take (min n (c.sched c.calls + 1)),
   ⟨c.stream.drop (min n (c.sched c.calls + 1)), c.sched, c.calls + 1⟩)

/-- Arrow_client.py lines 24-31: loop until 8 header bytes are accumulated,
failing when the connection closes first. -/
def recvHeader (c : Conn) (header : List Nat) : Except String (List Nat × Conn) :=
  if h8 : header.length < 8 then
    match recv c (8 - header.length) with
    | (chunk, c2) =>
      if hc : chunk = [] then .error "Socket closed before header received"
      else recvHeader c2 (header ++ chunk)
  else .ok (header, c)
termination_by 8 - header.length
decreasing_by
  have : 0 < chunk.length := List.length_pos.mpr hc
  simp only [List.length_append]
  omega

/-- Arrow_client.py lines 34-41: loop reading min(buffer_size, bytes_remaining)
bytes at a time until the declared length is accumulated, failing when the
connection closes first. -/
def recvPayload (c : Conn) (bufferSize bytesRemaining : Nat) (data : List Nat) :
    Except String (List Nat) :=
  if hb : 0 < bytesRemaining then
    match recv c (min bufferSize bytesRemaining) with
    | (chunk, c2) =>
      if hc : chunk = [] then .error "Socket closed before full data received"
      else recvPayload c2 bufferSize (bytesRemaining - chunk.length) (data ++ chunk)
  else .ok data
termination_by bytesRemaining
decreasing_by
  have : 0 < chunk.length := List.length_pos.mpr hc
  omega

/-- struct.unpack of a big-endian unsigned 64-bit integer: fold the 8 header
bytes most significant first. -/
def beU64 (bs : List Nat) : Nat :=
  bs.foldl (fun acc b => acc * 256 + b) 0

/-- The big-endian byte encoding of a number on k bytes (most significant
first); beBytes 8 is the encoding that struct.unpack "!Q" inverts. -/
def beBytes : Nat → Nat → List Nat
  | 0, _ => []
  | k + 1, v => beBytes k (v / 256) ++ [v % 256]

/-- Arrow_client.py fetch_arrow_table, lines 24-41: read the 8-byte big-endian
length header, then exactly that many payload bytes.  Decoding of the payload
into an Arrow table is the external collaborator and is not modelled. -/
def fetch_arrow_table (c : Conn) (buffer_size : Nat) : Except String (List Nat) :=
  match recvHeader c [] with
  | .error e => .error e
  | .ok (header, c1) => recvPayload c1 buffer_size (beU64 header) []

/-- Fuel-indexed variant of _attempt_query: identical branching, but each
recursive call consumes one unit of fuel and exhausted fuel returns none.
Used to state that the recursion of the executor terminates. -/
def attemptQueryFuel : Nat → (Nat → List Value → Kwargs → Except String (List Value)) →
    List Value → Kwargs → String → Nat → Nat → Nat →
    Option (Except String (List Value) × Nat)
  | 0, _, _, _, _, _, _, _ => none
  | fuel + 1, oracle, args, kwargs, chunk_dim, max_retries, retries, clock =>
    match oracle clock args kwargs with
    | .ok result => some (.ok result, clock + 1)
    | .error e =>
      if splitCondQ kwargs chunk_dim e then
        match attemptQueryFuel fuel oracle args
            (kwUpdate kwargs chunk_dim (.vlist (splitMid ((dimItems kwargs chunk_dim).getD [])).1))
            chunk_dim max_retries retries (clock + 1) with
        | some (.ok result1, c1) =>
          match attemptQueryFuel fuel oracle args
              (kwUpdate kwargs chunk_dim (.vlist (splitMid ((dimItems kwargs chunk_dim).getD [])).2))
              chunk_dim max_retries retries c1 with
          | some (.ok result2, c2) => some (.ok (result1 ++ result2), c2)
          | some (.error e2, c2) => some (.error e2, c2)
          | none => none
        | some (.error e1, c1) => some (.error e1, c1)
        | none => none
      else if retries < max_retries then
        attemptQueryFuel fuel oracle args kwargs chunk_dim max_retries (retries + 1) (clock + 1)
      else some (.error e, clock + 1)

/-- Fuel-indexed variant of _attempt_q_call, in the same sense. -/
def attemptQCallFuel : Nat → (Nat → List Value → Kwargs → Except String (List Value)) →
    List Value → Kwargs → List String → Nat → Nat → Nat →
    Option (Except String (List Value) × Nat)
  | 0, _, _, _, _, _, _, _ => none
  | fuel + 1, oracle, args, kwargs, chunk_dims, max_retries, retries, clock =>
    match oracle clock args kwargs with
    | .ok result => some (.ok result, clock + 1)
    | .error e =>
      match findChunkDim kwargs e chunk_dims with
      | some (d, items) =>
        match attemptQCallFuel fuel oracle args
            (kwUpdate kwargs d (.vlist (splitMid items).1))
            chunk_dims max_retries retries (clock + 1) with
        | some (.ok res1, c1) =>
          match attemptQCallFuel fuel oracle args
              (kwUpdate kwargs d (.vlist (splitMid items).2))
              chunk_dims max_retries retries c1 with
          | some (.ok res2, c2) => some (.ok (res1 ++ res2), c2)
          | some (.error e2, c2) => some (.error e2, c2)
          | none => none
        | some (.error e1, c1) => some (.error e1, c1)
        | none => none
      | none =>
        if retries < max_retries then
          attemptQCallFuel fuel oracle args kwargs chunk_dims max_retries (retries + 1) (clock + 1)
        else some (.error e, clock + 1)

/-- The simulated query function of Retry.py lines 52-70 (run_query body):
raise "Query too big" when the symbols list has more than 3 elements,
otherwise return one record per symbol.  The function is pure, so the clock is
ignored. -/
def runQueryInner (_clock : Nat) (_args : List Value) (kwargs : Kwargs) :
    Except String (List Value) :=
  match (kwLookup kwargs "symbols").getD (.vlist []) with
  | .vlist symbols =>
    if 3 < symbols.length then .error "Query too big"
    else .ok (symbols.map (fun s => .vdict [("symbol", s), ("data", .vstr "dummy data")]))
  | v => .ok [.vdict [("symbol", v), ("data", .vstr "dummy data")]]

/-- Retry.py run_query as decorated: chunk_dim is symbols, max_retries is 2,
the retry counter starts at 0. -/
def run_query (args : List Value) (kwargs : Kwargs) (clock : Nat) :
    Except String (List Value) × Nat :=
  attemptQuery runQueryInner args kwargs "symbols" 2 0 clock

/-- The left-then-right sequencing of the two sub-calls of a split (Retry.py
lines 38-41, Retry2.py lines 22-25): run the left branch; if it raises, the
exception propagates and the right branch never runs; otherwise run the right
branch from the clock the left branch reached and concatenate the results. -/
def seqMerge (left right : Nat → Except String (List Value) × Nat) (clock : Nat) :
    Except String (List Value) × Nat :=
  match left clock with
  | (.ok res1, c1) =>
    match right c1 with
    | (.ok res2, c2) => (.ok (res1 ++ res2), c2)
    | (.error e2, c2) => (.error e2, c2)
  | (.error e1, c1) => (.error e1, c1)

/-- The six-symbol input of the Retry.py example (lines 73-86). -/
def symbolsSix : List Value :=
  [.vstr "AAPL", .vstr "GOOG", .vstr "MSFT", .vstr "AMZN", .vstr "FB", .vstr "TSLA"]

/-- The keyword arguments of the Retry.py example invocation. -/
def kwargsSix : Kwargs :=
  [("symbols", .vlist symbolsSix),
   ("start_date", .vstr "2025-01-01"), ("end_date", .vstr "2025-01-31"),
   ("start_time", .vstr "09:30"), ("end_time", .vstr "16:00")]

/-- One simulated result record of run_query. -/
def recordOf (s : Value) : Value :=
  .vdict [("symbol", s), ("data", .vstr "dummy data")]

/-- A wrapped call whose first invocation fails with the transport-fatal error
raised by fetch_arrow_table when the peer closes before the header, and whose
later invocations succeed. -/
def transportOracle : Nat → List Value → Kwargs → Except String (List Value) :=
  fun clock _ _ =>
    if clock = 0 then .error "Socket closed before header received"
    else .ok [.vstr "ok"]

/-! Equation lemmas characterising the four states of each executor on one
failure occurrence: success, split, retry, fail. -/

theorem attemptQuery_ok (oracle : Nat → List Value → Kwargs → Except String (List Value))
    (args : List Value) (kwargs : Kwargs) (chunk_dim : String)
    (max_retries retries clock : Nat) (result : List Value)
    (h : oracle clock args kwargs = .ok result) :
    attemptQuery oracle args kwargs chunk_dim max_retries retries clock =
      (.ok result, clock + 1) := by
  rw [attemptQuery, h]

theorem attemptQuery_split (oracle : Nat → List Value → Kwargs → Except String (List Value))
    (args : List Value) (kwargs : Kwargs) (chunk_dim : String)
    (max_retries retries clock : Nat) (e : String) (items : List Value)
    (he : oracle clock args kwargs = .error e)
    (hi : dimItems kwargs chunk_dim = some items)
    (ho : isOversized e = true) (hl : 1 < items.length) :
    attemptQuery oracle args kwargs chunk_dim max_retries retries clock =
      (match attemptQuery oracle args
          (kwUpdate kwargs chunk_dim (.vlist (splitMid items).1))
          chunk_dim max_retries retries (clock + 1) with
      | (.ok result1, c1) =>
        match attemptQuery oracle args
            (kwUpdate kwargs chunk_dim (.vlist (splitMid items).2))
            chunk_dim max_retries retries c1 with
        | (.ok result2, c2) => (.ok (result1 ++ result2), c2)
        | (.error e2, c2) => (.error e2, c2)
      | (.error e1, c1) => (.error e1, c1)) := by
  have hq : splitCondQ kwargs chunk_dim e = true := by
    simp [splitCondQ, ho, dimLen, hi]
    omega
  rw [attemptQuery, he]
  simp only [hq, dif_pos, hi, Option.getD_some]

theorem attemptQuery_retry (oracle : Nat → List Value → Kwargs → Except String (List Value))
    (args : List Value) (kwargs : Kwargs) (chunk_dim : String)
    (max_retries retries clock : Nat) (e : String)
    (he : oracle clock args kwargs = .error e)
    (hq : splitCondQ kwargs chunk_dim e = false)
    (hr : retries < max_retries) :
    attemptQuery oracle args kwargs chunk_dim max_retries retries clock =
      attemptQuery oracle args kwargs chunk_dim max_retries (retries + 1) (clock + 1) := by
  rw [attemptQuery, he]
  simp [hq, hr]

theorem attemptQuery_fail (oracle : Nat → List Value → Kwargs → Except String (List Value))
    (args : List Value) (kwargs : Kwargs) (chunk_dim : String)
    (max_retries retries clock : Nat) (e : String)
    (he : oracle clock args kwargs = .error e)
    (hq : splitCondQ kwargs chunk_dim e = false)
    (hr : ¬ retries < max_retries) :
    attemptQuery oracle args kwargs chunk_dim max_retries retries clock =
      (.error e, clock + 1) := by
  rw [attemptQuery, he]
  simp [hq, hr]

theorem attemptQCall_ok (oracle : Nat → List Value → Kwargs → Except String (List Value))
    (args : List Value) (kwargs : Kwargs) (chunk_dims : List String)
    (max_retries retries clock : Nat) (result : List Value)
    (h : oracle clock args kwargs = .ok result) :
    attemptQCall oracle args kwargs chunk_dims max_retries retries clock =
      (.ok result, clock + 1) := by
  rw [attemptQCall, h]

theorem attemptQCall_split (oracle : Nat → List Value → Kwargs → Except String (List Value))
    (args : List Value) (kwargs : Kwargs) (chunk_dims : List String)
    (max_retries retries clock : Nat) (e d : String) (items : List Value)
    (he : oracle clock args kwargs = .error e)
    (hfind : findChunkDim kwargs e chunk_dims = some (d, items)) :
    attemptQCall oracle args kwargs chunk_dims max_retries retries clock =
      (match attemptQCall oracle args
          (kwUpdate kwargs d (.vlist (splitMid items).1))
          chunk_dims max_retries retries (clock + 1) with
      | (.ok res1, c1) =>
        match attemptQCall oracle args
            (kwUpdate kwargs d (.vlist (splitMid items).2))
            chunk_dims max_retries retries c1 with
        | (.ok res2, c2) => (.ok (res1 ++ res2), c2)
        | (.error e2, c2) => (.error e2, c2)
      | (.error e1, c1) => (.error e1, c1)) := by
  rw [attemptQCall, he]
  split
  · rename_i res hok
    exact absurd hok (by simp)
  · rename_i e2 herr
    injection herr with he2
    subst he2
    split
    · rename_i d2 items2 hfind2
      rw [hfind] at hfind2
      simp only [Option.some.injEq, Prod.mk.injEq] at hfind2
      obtain ⟨h1, h2⟩ := hfind2
      subst h1
      subst h2
      rfl
    · rename_i hnone
      rw [hfind] at hnone
      simp at hnone

theorem attemptQCall_retry (oracle : Nat → List Value → Kwargs → Except String (List Value))
    (args : List Value) (kwargs : Kwargs) (chunk_dims : List String)
    (max_retries retries clock : Nat) (e : String)
    (he : oracle clock args kwargs = .error e)
    (hfind : findChunkDim kwargs e chunk_dims = none)
    (hr : retries < max_retries) :
    attemptQCall oracle args kwargs chunk_dims max_retries retries clock =
      attemptQCall oracle args kwargs chunk_dims max_retries (retries + 1) (clock + 1) := by
  rw [attemptQCall, he]
  split
  · rename_i res hok
    exact absurd hok (by simp)
  · rename_i e2 herr
    injection herr with he2
    subst he2
    split
    · rename_i d2 items2 hfind2
      rw [hfind] at hfind2
      simp at hfind2
    · simp [hr]

theorem attemptQCall_fail (oracle : Nat → List Value → Kwargs → Except String (List Value))
    (args : List Value) (kwargs : Kwargs) (chunk_dims : List String)
    (max_retries retries clock : Nat) (e : String)
    (he : oracle clock args kwargs = .error e)
    (hfind : findChunkDim kwargs e chunk_dims = none)
    (hr : ¬ retries < max_retries) :
    attemptQCall oracle args kwargs chunk_dims max_retries retries clock =
      (.error e, clock + 1) := by
  rw [attemptQCall, he]
  split
  · rename_i res hok
    exact absurd hok (by simp)
  · rename_i e2 herr
    injection herr with he2
    subst he2
    split
    · rename_i d2 items2 hfind2
      rw [hfind] at hfind2
      simp at hfind2
    · simp [hr]

theorem splitCondQ_not_oversized (kw : Kwargs) (d e : String)
    (h : isOversized e = false) : splitCondQ kw d e = false := by
  simp [splitCondQ, h]

theorem attemptQuery_allFail (oracle : Nat → List Value → Kwargs → Except String (List Value))
    (args : List Value) (kwargs : Kwargs) (chunk_dim : String)
    (max_retries : Nat) (e : String)
    (hf : ∀ c, oracle c args kwargs = .error e)
    (ho : isOversized e = false) :
    ∀ k retries clock, max_retries - retries = k →
      attemptQuery oracle args kwargs chunk_dim max_retries retries clock =
        (.error e, clock + (max_retries - retries) + 1) := by
  intro k
  induction k with
  | zero =>
    intro retries clock hk
    rw [attemptQuery_fail oracle args kwargs chunk_dim max_retries retries clock e
      (hf clock) (splitCondQ_not_oversized kwargs chunk_dim e ho) (by omega)]
    simp only [Prod.mk.injEq]
    exact ⟨trivial, by omega⟩
  | succ k ih =>
    intro retries clock hk
    rw [attemptQuery_retry oracle args kwargs chunk_dim max_retries retries clock e
      (hf clock) (splitCondQ_not_oversized kwargs chunk_dim e ho) (by omega)]
    rw [ih (retries + 1) (clock + 1) (by omega)]
    simp only [Prod.mk.injEq]
    exact ⟨trivial, by omega⟩

theorem attemptQCall_allFail (oracle : Nat → List Value → Kwargs → Except String (List Value))
    (args : List Value) (kwargs : Kwargs) (chunk_dims : List String)
    (max_retries : Nat) (e : String)
    (hf : ∀ c, oracle c args kwargs = .error e)
    (ho : isOversized e = false) :
    ∀ k retries clock, max_retries - retries = k →
      attemptQCall oracle args kwargs chunk_dims max_retries retries clock =
        (.error e, clock + (max_retries - retries) + 1) := by
  intro k
  induction k with
  | zero =>
    intro retries clock hk
    rw [attemptQCall_fail oracle args kwargs chunk_dims max_retries retries clock e
      (hf clock) (findChunkDim_not_oversized kwargs e chunk_dims ho) (by omega)]
    simp only [Prod.mk.injEq]
    exact ⟨trivial, by omega⟩
  | succ k ih =>
    intro retries clock hk
    rw [attemptQCall_retry oracle args kwargs chunk_dims max_retries retries clock e
      (hf clock) (findChunkDim_not_oversized kwargs e chunk_dims ho) (by omega)]
    rw [ih (retries + 1) (clock + 1) (by omega)]
    simp only [Prod.mk.injEq]
    exact ⟨trivial, by omega⟩

theorem attemptQuery_retrySucceeds (oracle : Nat → List Value → Kwargs → Except String (List Value))
    (args : List Value) (kwargs : Kwargs) (chunk_dim : String)
    (max_retries : Nat) (v : List Value) :
    ∀ k (errs : Nat → String) retries clock,
      retries + k ≤ max_retries →
      (∀ j, j < k → oracle (clock + j) args kwargs = .error (errs j) ∧
        isOversized (errs j) = false) →
      oracle (clock + k) args kwargs = .ok v →
      attemptQuery oracle args kwargs chunk_dim max_retries retries clock =
        (.ok v, clock + k + 1) := by
  intro k
  induction k with
  | zero =>
    intro errs retries clock _ _ hok
    simp only [Nat.add_zero] at hok
    rw [attemptQuery_ok oracle args kwargs chunk_dim max_retries retries clock v hok]
  | succ k ih =>
    intro errs retries clock hbound herrs hok
    have h0 := herrs 0 (by omega)
    simp only [Nat.add_zero] at h0
    rw [attemptQuery_retry oracle args kwargs chunk_dim max_retries retries clock (errs 0)
      h0.1 (splitCondQ_not_oversized kwargs chunk_dim (errs 0) h0.2) (by omega)]
    rw [ih (fun j => errs (j + 1)) (retries + 1) (clock + 1) (by omega)
      (fun j hj => by
        have := herrs (j + 1) (by omega)
        constructor
        · rw [show clock + 1 + j = clock + (j + 1) by omega]
          exact this.1
        · exact this.2)
      (by rw [show clock + 1 + k = clock + (k + 1) by omega]; exact hok)]
    simp only [Prod.mk.injEq]
    exact ⟨trivial, by omega⟩

theorem attemptQCall_retrySucceeds (oracle : Nat → List Value → Kwargs → Except String (List Value))
    (args : List Value) (kwargs : Kwargs) (chunk_dims : List String)
    (max_retries : Nat) (v : List Value) :
    ∀ k (errs : Nat → String) retries clock,
      retries + k ≤ max_retries →
      (∀ j, j < k → oracle (clock + j) args kwargs = .error (errs j) ∧
        isOversized (errs j) = false) →
      oracle (clock + k) args kwargs = .ok v →
      attemptQCall oracle args kwargs chunk_dims max_retries retries clock =
        (.ok v, clock + k + 1) := by
  intro k
  induction k with
  | zero =>
    intro errs retries clock _ _ hok
    simp only [Nat.add_zero] at hok
    rw [attemptQCall_ok oracle args kwargs chunk_dims max_retries retries clock v hok]
  | succ k ih =>
    intro errs retries clock hbound herrs hok
    have h0 := herrs 0 (by omega)
    simp only [Nat.add_zero] at h0
    rw [attemptQCall_retry oracle args kwargs chunk_dims max_retries retries clock (errs 0)
      h0.1 (findChunkDim_not_oversized kwargs (errs 0) chunk_dims h0.2) (by omega)]
    rw [ih (fun j => errs (j + 1)) (retries + 1) (clock + 1) (by omega)
      (fun j hj => by
        have := herrs (j + 1) (by omega)
        constructor
        · rw [show clock + 1 + j = clock + (j + 1) by omega]
          exact this.1
        · exact this.2)
      (by rw [show clock + 1 + k = clock + (k + 1) by omega]; exact hok)]
    simp only [Prod.mk.injEq]
    exact ⟨trivial, by omega⟩

theorem attemptQueryFuel_eq (oracle : Nat → List Value → Kwargs → Except String (List Value))
    (args : List Value) (chunk_dim : String) (max_retries : Nat) :
    ∀ n kwargs retries clock fuel,
      dimLen kwargs chunk_dim * (max_retries + 1) + (max_retries - retries) = n →
      n < fuel →
      attemptQueryFuel fuel oracle args kwargs chunk_dim max_retries retries clock =
        some (attemptQuery oracle args kwargs chunk_dim max_retries retries clock) := by
  intro n
  induction n using Nat.strong_induction_on with
  | _ n ih =>
  intro kwargs retries clock fuel hn hfuel
  obtain ⟨f, rfl⟩ : ∃ f, fuel = f + 1 := ⟨fuel - 1, by omega⟩
  cases he : oracle clock args kwargs with
  | ok result =>
    rw [attemptQuery_ok oracle args kwargs chunk_dim max_retries retries clock result he]
    simp [attemptQueryFuel, he]
  | error e =>
    by_cases hq : splitCondQ kwargs chunk_dim e = true
    · obtain ⟨hlen, hdl⟩ := splitCondQ_len kwargs chunk_dim e hq
      obtain ⟨hdi, _⟩ := splitCondQ_dimItems kwargs chunk_dim e hq
      have ho : isOversized e = true := splitCondQ_oversized kwargs chunk_dim e hq
      have hm1 : dimLen (kwUpdate kwargs chunk_dim
          (.vlist (splitMid ((dimItems kwargs chunk_dim).getD [])).1)) chunk_dim *
          (max_retries + 1) + (max_retries - retries) < n := by
        rw [dimLen_kwUpdate_self, splitMid_fst_length, ← hn, hdl]
        exact measure_split_lt _ _ _ _ _ (by omega) (Nat.sub_le _ _)
      have hm2 : dimLen (kwUpdate kwargs chunk_dim
          (.vlist (splitMid ((dimItems kwargs chunk_dim).getD [])).2)) chunk_dim *
          (max_retries + 1) + (max_retries - retries) < n := by
        rw [dimLen_kwUpdate_self, splitMid_snd_length, ← hn, hdl]
        exact measure_split_lt _ _ _ _ _ (by omega) (Nat.sub_le _ _)
      have hL := ih _ hm1 (kwUpdate kwargs chunk_dim
        (.vlist (splitMid ((dimItems kwargs chunk_dim).getD [])).1)) retries (clock + 1) f
        rfl (by omega)
      rw [attemptQuery_split oracle args kwargs chunk_dim max_retries retries clock e
        ((dimItems kwargs chunk_dim).getD []) he hdi ho hlen]
      simp only [attemptQueryFuel, he]
      rw [if_pos hq, hL]
      rcases hres1 : attemptQuery oracle args (kwUpdate kwargs chunk_dim
        (.vlist (splitMid ((dimItems kwargs chunk_dim).getD [])).1)) chunk_dim max_retries
        retries (clock + 1) with ⟨res1, c1⟩
      cases res1 with
      | error e1 => rfl
      | ok r1 =>
        have hR := ih _ hm2 (kwUpdate kwargs chunk_dim
          (.vlist (splitMid ((dimItems kwargs chunk_dim).getD [])).2)) retries c1 f
          rfl (by omega)
        simp only
        rw [hR]
        rcases hres2 : attemptQuery oracle args (kwUpdate kwargs chunk_dim
          (.vlist (splitMid ((dimItems kwargs chunk_dim).getD [])).2)) chunk_dim max_retries
          retries c1 with ⟨res2, c2⟩
        cases res2 with
        | error e2 => rfl
        | ok r2 => rfl
    · have hqf : splitCondQ kwargs chunk_dim e = false := by
        revert hq
        cases splitCondQ kwargs chunk_dim e <;> simp
      by_cases hr : retries < max_retries
      · rw [attemptQuery_retry oracle args kwargs chunk_dim max_retries retries clock e
          he hqf hr]
        simp only [attemptQueryFuel, he]
        rw [if_neg (by simp [hqf]), if_pos hr]
        exact ih (dimLen kwargs chunk_dim * (max_retries + 1) + (max_retries - (retries + 1)))
          (by omega) kwargs (retries + 1) (clock + 1) f rfl (by omega)
      · rw [attemptQuery_fail oracle args kwargs chunk_dim max_retries retries clock e
          he hqf hr]
        simp only [attemptQueryFuel, he]
        rw [if_neg (by simp [hqf]), if_neg hr]

theorem attemptQCallFuel_eq (oracle : Nat → List Value → Kwargs → Except String (List Value))
    (args : List Value) (chunk_dims : List String) (max_retries : Nat) :
    ∀ n kwargs retries clock fuel,
      sumLen kwargs chunk_dims * (max_retries + 1) + (max_retries - retries) = n →
      n < fuel →
      attemptQCallFuel fuel oracle args kwargs chunk_dims max_retries retries clock =
        some (attemptQCall oracle args kwargs chunk_dims max_retries retries clock) := by
  intro n
  induction n using Nat.strong_induction_on with
  | _ n ih =>
  intro kwargs retries clock fuel hn hfuel
  obtain ⟨f, rfl⟩ : ∃ f, fuel = f + 1 := ⟨fuel - 1, by omega⟩
  cases he : oracle clock args kwargs with
  | ok result =>
    rw [attemptQCall_ok oracle args kwargs chunk_dims max_retries retries clock result he]
    simp [attemptQCallFuel, he]
  | error e =>
    cases hfind : findChunkDim kwargs e chunk_dims with
    | some p =>
      obtain ⟨d, items⟩ := p
      obtain ⟨hd, hdi, hlen, _⟩ := findChunkDim_spec kwargs e chunk_dims d items hfind
      have hm1 : sumLen (kwUpdate kwargs d (.vlist (splitMid items).1)) chunk_dims *
          (max_retries + 1) + (max_retries - retries) < n := by
        rw [← hn]
        refine measure_split_lt _ _ _ _ _ ?_ (Nat.sub_le _ _)
        apply sumLen_kwUpdate_lt kwargs d items _ chunk_dims hd hdi
        rw [splitMid_fst_length]
        omega
      have hm2 : sumLen (kwUpdate kwargs d (.vlist (splitMid items).2)) chunk_dims *
          (max_retries + 1) + (max_retries - retries) < n := by
        rw [← hn]
        refine measure_split_lt _ _ _ _ _ ?_ (Nat.sub_le _ _)
        apply sumLen_kwUpdate_lt kwargs d items _ chunk_dims hd hdi
        rw [splitMid_snd_length]
        omega
      have hL := ih _ hm1 (kwUpdate kwargs d (.vlist (splitMid items).1)) retries
        (clock + 1) f rfl (by omega)
      rw [attemptQCall_split oracle args kwargs chunk_dims max_retries retries clock e d
        items he hfind]
      simp only [attemptQCallFuel, he]
      rw [hfind]
      dsimp only
      rw [hL]
      rcases hres1 : attemptQCall oracle args (kwUpdate kwargs d
        (.vlist (splitMid items).1)) chunk_dims max_retries retries (clock + 1) with ⟨res1, c1⟩
      cases res1 with
      | error e1 => rfl
      | ok r1 =>
        have hR := ih _ hm2 (kwUpdate kwargs d (.vlist (splitMid items).2)) retries c1 f
          rfl (by omega)
        simp only
        rw [hR]
        rcases hres2 : attemptQCall oracle args (kwUpdate kwargs d
          (.vlist (splitMid items).2)) chunk_dims max_retries retries c1 with ⟨res2, c2⟩
        cases res2 with
        | error e2 => rfl
        | ok r2 => rfl
    | none =>
      by_cases hr : retries < max_retries
      · rw [attemptQCall_retry oracle args kwargs chunk_dims max_retries retries clock e
          he hfind hr]
        simp only [attemptQCallFuel, he]
        rw [hfind, if_pos hr]
        exact ih (sumLen kwargs chunk_dims * (max_retries + 1) + (max_retries - (retries + 1)))
          (by omega) kwargs (retries + 1) (clock + 1) f rfl (by omega)
      · rw [attemptQCall_fail oracle args kwargs chunk_dims max_retries retries clock e
          he hfind hr]
        simp only [attemptQCallFuel, he]
        rw [hfind, if_neg hr]

/-! Behaviour of the transport loops. -/

theorem recvHeader_ok (m : Nat) :
    ∀ (c : Conn) (header : List Nat),
      header.length ≤ 8 → m = 8 - header.length → m ≤ c.stream.length →
      ∃ n, recvHeader c header =
        .ok (header ++ c.stream.take m, ⟨c.stream.drop m, c.sched, n⟩) := by
  induction m using Nat.strong_induction_on with
  | _ m ih =>
  intro c header hle hm hstream
  by_cases h8 : header.length < 8
  · have hm1 : 1 ≤ m := by omega
    rw [recvHeader, dif_pos h8]
    simp only [recv]
    have hk1 : 1 ≤ min (8 - header.length) (c.sched c.calls + 1) := by omega
    have hkm : min (8 - header.length) (c.sched c.calls + 1) ≤ m := by omega
    set k := min (8 - header.length) (c.sched c.calls + 1) with hk
    have hchunklen : (c.stream.take k).length = k := by
      rw [List.length_take]
      omega
    have hchunk : ¬ c.stream.take k = [] := by
      intro hnil
      rw [hnil] at hchunklen
      simp at hchunklen
      omega
    rw [dif_neg hchunk]
    have hrec := ih (m - k) (by omega) ⟨c.stream.drop k, c.sched, c.calls + 1⟩
      (header ++ c.stream.take k)
      (by simp [List.length_append, hchunklen]; omega)
      (by simp [List.length_append, hchunklen]; omega)
      (by simp [List.length_drop]; omega)
    obtain ⟨n, hrec⟩ := hrec
    refine ⟨n, ?_⟩
    rw [hrec]
    congr 1
    simp only [Prod.mk.injEq]
    constructor
    · rw [List.append_assoc]
      congr 1
      rw [← List.take_add ]
      congr 1
      omega
    · simp only [List.drop_drop]
      rw [Nat.add_sub_cancel' hkm]

  · have hm0 : m = 0 := by omega
    subst hm0
    rw [recvHeader, dif_neg h8]
    exact ⟨c.calls, by simp⟩

theorem recvHeader_err (s : Nat) :
    ∀ (c : Conn) (header : List Nat),
      c.stream.length = s → header.length < 8 →
      header.length + c.stream.length < 8 →
      recvHeader c header = .error "Socket closed before header received" := by
  induction s using Nat.strong_induction_on with
  | _ s ih =>
  intro c header hs h8 hshort
  rw [recvHeader, dif_pos h8]
  simp only [recv]
  set k := min (8 - header.length) (c.sched c.calls + 1) with hk
  by_cases hnil : c.stream.take k = []
  · rw [dif_pos hnil]
  · rw [dif_neg hnil]
    have hpos : 0 < (c.stream.take k).length := List.length_pos.mpr hnil
    rw [List.length_take] at hpos
    have hklen : (c.stream.take k).length = min k c.stream.length := List.length_take _ _
    exact ih (c.stream.length - k) (by omega) ⟨c.stream.drop k, c.sched, c.calls + 1⟩
      (header ++ c.stream.take k)
      (by simp [List.length_drop, hs])
      (by simp [List.length_append, hklen]; omega)
      (by simp [List.length_append, List.length_drop, hklen]; omega)

theorem recvPayload_ok (m : Nat) :
    ∀ (c : Conn) (bufferSize : Nat) (data : List Nat),
      0 < bufferSize → m ≤ c.stream.length →
      recvPayload c bufferSize m data = .ok (data ++ c.stream.take m) := by
  induction m using Nat.strong_induction_on with
  | _ m ih =>
  intro c bufferSize data hbuf hstream
  by_cases hm : 0 < m
  · rw [recvPayload, dif_pos hm]
    simp only [recv]
    set k := min (min bufferSize m) (c.sched c.calls + 1) with hk
    have hk1 : 1 ≤ k := by omega
    have hkm : k ≤ m := by omega
    have hchunklen : (c.stream.take k).length = k := by
      rw [List.length_take]
      omega
    have hchunk : ¬ c.stream.take k = [] := by
      intro hnil
      rw [hnil] at hchunklen
      simp at hchunklen
      omega
    rw [dif_neg hchunk, hchunklen]
    rw [ih (m - k) (by omega) ⟨c.stream.drop k, c.sched, c.calls + 1⟩ bufferSize
      (data ++ c.stream.take k) hbuf (by simp [List.length_drop]; omega)]
    rw [List.append_assoc]
    congr 1
    simp only
    rw [← List.take_add, Nat.add_sub_cancel' hkm]
  · have hm0 : m = 0 := by omega
    subst hm0
    rw [recvPayload, dif_neg (by omega)]
    simp

theorem recvPayload_err (m : Nat) :
    ∀ (c : Conn) (bufferSize : Nat) (data : List Nat),
      c.stream.length < m →
      recvPayload c bufferSize m data = .error "Socket closed before full data received" := by
  induction m using Nat.strong_induction_on with
  | _ m ih =>
  intro c bufferSize data hshort
  have hm : 0 < m := by omega
  rw [recvPayload, dif_pos hm]
  simp only [recv]
  set k := min (min bufferSize m) (c.sched c.calls + 1) with hk
  by_cases hnil : c.stream.take k = []
  · rw [dif_pos hnil]
  · rw [dif_neg hnil]
    have hpos : 0 < (c.stream.take k).length := List.length_pos.mpr hnil
    have hklen : (c.stream.take k).length = min k c.stream.length := List.length_take _ _
    exact ih (m - (c.stream.take k).length) (by omega)
      ⟨c.stream.drop k, c.sched, c.calls + 1⟩ bufferSize (data ++ c.stream.take k)
      (by simp [List.length_drop]; omega)

theorem beBytes_length (k v : Nat) : (beBytes k v).length = k := by
  induction k generalizing v with
  | zero => simp [beBytes]
  | succ k ih => simp [beBytes, ih]

theorem beU64_beBytes (k : Nat) : ∀ v, beU64 (beBytes k v) = v % 256 ^ k := by
  induction k with
  | zero => intro v; simp [beBytes, beU64, Nat.mod_one]
  | succ k ih =>
    intro v
    have hmul : (256 : Nat) ^ (k + 1) = 256 * 256 ^ k := by ring
    rw [beBytes]
    unfold beU64
    rw [List.foldl_append]
    have hfold : List.foldl (fun acc b => acc * 256 + b) 0 (beBytes k (v / 256)) =
        v / 256 % 256 ^ k := ih (v / 256)
    rw [hfold]
    simp only [List.foldl_cons, List.foldl_nil]
    rw [hmul, Nat.mod_mul]
    ring

theorem fetch_ok (L : Nat) (payload : List Nat) (sched : Nat → Nat)
    (bufferSize : Nat) (hL : L < 2 ^ 64) (hlen : payload.length = L)
    (hbuf : 0 < bufferSize) :
    fetch_arrow_table ⟨beBytes 8 L ++ payload, sched, 0⟩ bufferSize = .ok payload := by
  have h8 : (beBytes 8 L).length = 8 := beBytes_length 8 L
  have hstream : (8 : Nat) ≤ ((beBytes 8 L ++ payload).length) := by
    simp [List.length_append, h8]
  obtain ⟨n, hhead⟩ := recvHeader_ok 8 ⟨beBytes 8 L ++ payload, sched, 0⟩ []
    (by simp) (by simp) (by simpa using hstream)
  rw [fetch_arrow_table, hhead]
  simp only [List.nil_append]
  have htake : (beBytes 8 L ++ payload).take 8 = beBytes 8 L := by
    rw [List.take_append_eq_append_take, h8]
    simp [h8]
  have hdrop : (beBytes 8 L ++ payload).drop 8 = payload := by
    rw [List.drop_append_eq_append_drop, h8]
    simp [h8]
  rw [htake, hdrop]
  have hbe : beU64 (beBytes 8 L) = L := by
    rw [beU64_beBytes]
    have : (256 : Nat) ^ 8 = 2 ^ 64 := by norm_num
    rw [this]
    exact Nat.mod_eq_of_lt hL
  rw [hbe]
  rw [recvPayload_ok L ⟨payload, sched, n⟩ bufferSize [] hbuf (by simp [hlen])]
  simp [hlen]

theorem fetch_err_header (pre : List Nat) (sched : Nat → Nat) (bufferSize : Nat)
    (hshort : pre.length < 8) :
    fetch_arrow_table ⟨pre, sched, 0⟩ bufferSize =
      .error "Socket closed before header received" := by
  rw [fetch_arrow_table,
    recvHeader_err pre.length ⟨pre, sched, 0⟩ [] rfl (by simp) (by simpa using hshort)]

theorem fetch_err_payload (L : Nat) (payload : List Nat) (sched : Nat → Nat)
    (bufferSize : Nat) (hL : L < 2 ^ 64) (hlen : payload.length < L) :
    fetch_arrow_table ⟨beBytes 8 L ++ payload, sched, 0⟩ bufferSize =
      .error "Socket closed before full data received" := by
  have h8 : (beBytes 8 L).length = 8 := beBytes_length 8 L
  obtain ⟨n, hhead⟩ := recvHeader_ok 8 ⟨beBytes 8 L ++ payload, sched, 0⟩ []
    (by simp) (by simp) (by simp [List.length_append, h8])
  rw [fetch_arrow_table, hhead]
  simp only [List.nil_append]
  have htake : (beBytes 8 L ++ payload).take 8 = beBytes 8 L := by
    rw [List.take_append_eq_append_take, h8]
    simp [h8]
  have hdrop : (beBytes 8 L ++ payload).drop 8 = payload := by
    rw [List.drop_append_eq_append_drop, h8]
    simp [h8]
  rw [htake, hdrop]
  have hbe : beU64 (beBytes 8 L) = L := by
    rw [beU64_beBytes]
    have h264 : (256 : Nat) ^ 8 = 2 ^ 64 := by norm_num
    rw [h264]
    exact Nat.mod_eq_of_lt hL
  rw [hbe]
  exact recvPayload_err L ⟨payload, sched, n⟩ bufferSize [] (by simpa using hlen)

theorem attemptQuery_split_merge (oracle : Nat → List Value → Kwargs → Except String (List Value))
    (args : List Value) (kwargs : Kwargs) (chunk_dim : String)
    (max_retries retries clock : Nat) (e : String) (items : List Value)
    (he : oracle clock args kwargs = .error e)
    (hi : dimItems kwargs chunk_dim = some items)
    (ho : isOversized e = true) (hl : 1 < items.length) :
    attemptQuery oracle args kwargs chunk_dim max_retries retries clock =
      seqMerge
        (attemptQuery oracle args
          (kwUpdate kwargs chunk_dim (.vlist (splitMid items).1)) chunk_dim max_retries retries)
        (attemptQuery oracle args
          (kwUpdate kwargs chunk_dim (.vlist (splitMid items).2)) chunk_dim max_retries retries)
        (clock + 1) := by
  rw [attemptQuery_split oracle args kwargs chunk_dim max_retries retries clock e items
    he hi ho hl]
  rfl

theorem attemptQCall_split_merge (oracle : Nat → List Value → Kwargs → Except String (List Value))
    (args : List Value) (kwargs : Kwargs) (chunk_dims : List String)
    (max_retries retries clock : Nat) (e d : String) (items : List Value)
    (he : oracle clock args kwargs = .error e)
    (hfind : findChunkDim kwargs e chunk_dims = some (d, items)) :
    attemptQCall oracle args kwargs chunk_dims max_retries retries clock =
      seqMerge
        (attemptQCall oracle args
          (kwUpdate kwargs d (.vlist (splitMid items).1)) chunk_dims max_retries retries)
        (attemptQCall oracle args
          (kwUpdate kwargs d (.vlist (splitMid items).2)) chunk_dims max_retries retries)
        (clock + 1) := by
  rw [attemptQCall_split oracle args kwargs chunk_dims max_retries retries clock e d items
    he hfind]
  rfl

theorem findChunkDim_first (kw : Kwargs) (e : String) :
    ∀ dims d items, findChunkDim kw e dims = some (d, items) →
      ∃ pre post, dims = pre ++ d :: post ∧
        ∀ d2 ∈ pre, ¬ ∃ its, dimItems kw d2 = some its ∧ 1 < its.length := by
  intro dims
  induction dims with
  | nil => intro d items h; simp [findChunkDim] at h
  | cons d2 rest ih =>
    intro d items h
    have ho : isOversized e = true :=
      (findChunkDim_spec kw e (d2 :: rest) d items h).2.2.2
    rw [findChunkDim] at h
    split at h
    · rename_i items2 hi
      split at h
      · rename_i hc
        simp only [Option.some.injEq, Prod.mk.injEq] at h
        obtain ⟨h1, h2⟩ := h
        subst h1
        subst h2
        exact ⟨[], rest, rfl, by simp⟩
      · rename_i hc
        obtain ⟨pre, post, hdims, hpre⟩ := ih d items h
        refine ⟨d2 :: pre, post, by simp [hdims], ?_⟩
        intro d3 hd3
        rcases List.mem_cons.mp hd3 with h3 | h3
        · subst h3
          rintro ⟨its, hits, hlen⟩
          rw [hi] at hits
          simp only [Option.some.injEq] at hits
          subst hits
          simp [ho, hlen] at hc
        · exact hpre d3 h3
    · rename_i hi
      obtain ⟨pre, post, hdims, hpre⟩ := ih d items h
      refine ⟨d2 :: pre, post, by simp [hdims], ?_⟩
      intro d3 hd3
      rcases List.mem_cons.mp hd3 with h3 | h3
      · subst h3
        rintro ⟨its, hits, hlen⟩
        rw [hits] at hi
        simp at hi
      · exact hpre d3 h3

theorem findChunkDim_none_spec (kw : Kwargs) (e : String) :
    ∀ dims, findChunkDim kw e dims = none →
      ∀ d ∈ dims,
        ¬ (isOversized e = true ∧ ∃ its, dimItems kw d = some its ∧ 1 < its.length) := by
  intro dims
  induction dims with
  | nil => intro _ d hd; simp at hd
  | cons d2 rest ih =>
    intro h d hd
    rw [findChunkDim] at h
    split at h
    · rename_i items2 hi
      split at h
      · simp at h
      · rename_i hc
        rcases List.mem_cons.mp hd with h3 | h3
        · subst h3
          rintro ⟨ho, its, hits, hlen⟩
          rw [hi] at hits
          simp only [Option.some.injEq] at hits
          subst hits
          simp [ho, hlen] at hc
        · exact ih h d h3
    · rename_i hi
      rcases List.mem_cons.mp hd with h3 | h3
      · subst h3
        rintro ⟨ho, its, hits, hlen⟩
        rw [hits] at hi
        simp at hi
      · exact ih h d h3

/-! The specification claims. -/

/-- C1: for every list of length n > 1, splitting a chunk dimension produces
exactly two lists, of lengths n / 2 and n - n / 2 in that order, and their
ordered concatenation equals the original list: no element is dropped,
duplicated or reordered. -/
theorem c1_split_completeness (items : List Value) (h : 1 < items.length) :
    (splitMid items).1.length = items.length / 2 ∧
    (splitMid items).2.length = items.length - items.length / 2 ∧
    (splitMid items).1 ++ (splitMid items).2 = items :=
  ⟨splitMid_fst_length items, splitMid_snd_length items, splitMid_append items⟩

/-- Witness for C1 at the three-element list a, b, c. -/
theorem c1_split_completeness_witness :
    (splitMid [Value.vstr "a", Value.vstr "b", Value.vstr "c"]).1.length =
      ([Value.vstr "a", Value.vstr "b", Value.vstr "c"] : List Value).length / 2 ∧
    (splitMid [Value.vstr "a", Value.vstr "b", Value.vstr "c"]).2.length =
      ([Value.vstr "a", Value.vstr "b", Value.vstr "c"] : List Value).length -
        ([Value.vstr "a", Value.vstr "b", Value.vstr "c"] : List Value).length / 2 ∧
    (splitMid [Value.vstr "a", Value.vstr "b", Value.vstr "c"]).1 ++
      (splitMid [Value.vstr "a", Value.vstr "b", Value.vstr "c"]).2 =
      [Value.vstr "a", Value.vstr "b", Value.vstr "c"] :=
  c1_split_completeness [Value.vstr "a", Value.vstr "b", Value.vstr "c"] (by decide)

/-- C3: for a wrapped function whose calls always fail with a non-oversized
error (so that no chunk dimension can qualify for a split), both executors,
started with retries = 0, call the function exactly max_retries + 1 times (the
returned clock advances from clock to clock + max_retries + 1, one tick per
call) and then raise the error of the function unchanged, not wrapped. -/
theorem c3_retry_termination (oracle : Nat → List Value → Kwargs → Except String (List Value))
    (args : List Value) (kwargs : Kwargs) (chunk_dim : String) (chunk_dims : List String)
    (max_retries clock : Nat) (e : String)
    (hf : ∀ c, oracle c args kwargs = .error e)
    (ho : isOversized e = false) :
    attemptQuery oracle args kwargs chunk_dim max_retries 0 clock =
      (.error e, clock + max_retries + 1) ∧
    attemptQCall oracle args kwargs chunk_dims max_retries 0 clock =
      (.error e, clock + max_retries + 1) := by
  constructor
  · have h := attemptQuery_allFail oracle args kwargs chunk_dim max_retries e hf ho
      (max_retries - 0) 0 clock rfl
    simpa using h
  · have h := attemptQCall_allFail oracle args kwargs chunk_dims max_retries e hf ho
      (max_retries - 0) 0 clock rfl
    simpa using h

/-- Witness for C3: an always-failing call with error boom and max_retries 2
is attempted 3 times by each executor and the error propagates unchanged. -/
theorem c3_retry_termination_witness :
    attemptQuery (fun _ _ _ => .error "boom") [] [("symbols", .vlist [.vstr "A", .vstr "B"])]
      "symbols" 2 0 0 = (.error "boom", 3) ∧
    attemptQCall (fun _ _ _ => .error "boom") [] [("symbols", .vlist [.vstr "A", .vstr "B"])]
      ["symbols"] 2 0 0 = (.error "boom", 3) :=
  c3_retry_termination (fun _ _ _ => .error "boom") [] [("symbols", .vlist [.vstr "A", .vstr "B"])]
    "symbols" ["symbols"] 2 0 "boom" (fun _ => rfl) rfl

/-- C4: a chunk dimension holding a sequence of 0 or 1 elements is never
split, even when the error matches the oversized marker: the Retry.py executor
falls through to the retry path (when retries remain) or fails, and the
Retry2.py dimension-selection loop never selects such a dimension. -/
theorem c4_no_oversplitting (oracle : Nat → List Value → Kwargs → Except String (List Value))
    (args : List Value) (kwargs : Kwargs) (chunk_dim : String)
    (max_retries retries clock : Nat) (e : String) (items : List Value)
    (hi : dimItems kwargs chunk_dim = some items) (hlen : items.length ≤ 1) :
    (oracle clock args kwargs = .error e →
      attemptQuery oracle args kwargs chunk_dim max_retries retries clock =
        (if retries < max_retries then
          attemptQuery oracle args kwargs chunk_dim max_retries (retries + 1) (clock + 1)
        else (.error e, clock + 1))) ∧
    (∀ chunk_dims d items2, findChunkDim kwargs e chunk_dims = some (d, items2) →
      d ≠ chunk_dim) := by
  have hq : splitCondQ kwargs chunk_dim e = false := by
    have hnot : ¬ (1 < dimLen kwargs chunk_dim) := by
      simp [dimLen, hi]
      omega
    simp [splitCondQ, hnot]
  constructor
  · intro he
    by_cases hr : retries < max_retries
    · rw [if_pos hr]
      exact attemptQuery_retry oracle args kwargs chunk_dim max_retries retries clock e he hq hr
    · rw [if_neg hr]
      exact attemptQuery_fail oracle args kwargs chunk_dim max_retries retries clock e he hq hr
  · intro chunk_dims d items2 hfind hd
    subst hd
    obtain ⟨_, hdi, hlen2, _⟩ := findChunkDim_spec kwargs e chunk_dims d items2 hfind
    rw [hi] at hdi
    simp only [Option.some.injEq] at hdi
    subst hdi
    omega

/-- Witness for C4: a single-element symbols dimension with an oversized
error is not split; the call retries. -/
theorem c4_no_oversplitting_witness :
    (((fun (_ : Nat) (_ : List Value) (_ : Kwargs) => (.error "too big" : Except String (List Value))) 0 [] [("symbols", .vlist [.vstr "A"])]) = (.error "too big" : Except String (List Value)) →
      attemptQuery (fun _ _ _ => .error "too big") [] [("symbols", .vlist [.vstr "A"])]
        "symbols" 1 0 0 =
        (if 0 < 1 then
          attemptQuery (fun _ _ _ => .error "too big") [] [("symbols", .vlist [.vstr "A"])]
            "symbols" 1 1 1
        else (.error "too big", 1))) ∧
    (∀ chunk_dims d items2,
      findChunkDim [("symbols", .vlist [.vstr "A"])] "too big" chunk_dims = some (d, items2) →
      d ≠ "symbols") :=
  c4_no_oversplitting (fun _ _ _ => .error "too big") [] [("symbols", .vlist [.vstr "A"])]
    "symbols" 1 0 0 "too big" [.vstr "A"] rfl (by decide)

/-- C5: for every declared length L and every fragmentation schedule, the
transport reads exactly 8 header bytes, interprets them as a big-endian
unsigned 64-bit integer L, then accumulates exactly the L payload bytes; if
the connection closes before 8 header bytes or before L payload bytes were
delivered, it fails with the corresponding fatal transport error. -/
theorem c5_frame_assembly :
    (∀ (L : Nat) (payload : List Nat) (sched : Nat → Nat) (bufferSize : Nat),
      L < 2 ^ 64 → payload.length = L → 0 < bufferSize →
      fetch_arrow_table ⟨beBytes 8 L ++ payload, sched, 0⟩ bufferSize = .ok payload) ∧
    (∀ L : Nat, L < 2 ^ 64 → beU64 (beBytes 8 L) = L) ∧
    (∀ (pre : List Nat) (sched : Nat → Nat) (bufferSize : Nat), pre.length < 8 →
      fetch_arrow_table ⟨pre, sched, 0⟩ bufferSize =
        .error "Socket closed before header received") ∧
    (∀ (L : Nat) (payload : List Nat) (sched : Nat → Nat) (bufferSize : Nat),
      L < 2 ^ 64 → payload.length < L →
      fetch_arrow_table ⟨beBytes 8 L ++ payload, sched, 0⟩ bufferSize =
        .error "Socket closed before full data received") := by
  refine ⟨fun L payload sched bufferSize hL hlen hbuf =>
      fetch_ok L payload sched bufferSize hL hlen hbuf,
    fun L hL => ?_,
    fun pre sched bufferSize hshort => fetch_err_header pre sched bufferSize hshort,
    fun L payload sched bufferSize hL hlen =>
      fetch_err_payload L payload sched bufferSize hL hlen⟩
  rw [beU64_beBytes]
  have h264 : (256 : Nat) ^ 8 = 2 ^ 64 := by norm_num
  rw [h264]
  exact Nat.mod_eq_of_lt hL

/-- Witness for C5: a 3-byte payload delivered one byte at a time is
reassembled; closing after 3 header bytes, or after 2 of 3 payload bytes,
fails fatally. -/
theorem c5_frame_assembly_witness :
    fetch_arrow_table ⟨beBytes 8 3 ++ [10, 20, 30], (fun _ => 0), 0⟩ 16384 =
      .ok [10, 20, 30] ∧
    beU64 (beBytes 8 3) = 3 ∧
    fetch_arrow_table ⟨[0, 0, 0], (fun _ => 0), 0⟩ 16384 =
      .error "Socket closed before header received" ∧
    fetch_arrow_table ⟨beBytes 8 3 ++ [10, 20], (fun _ => 0), 0⟩ 16384 =
      .error "Socket closed before full data received" :=
  ⟨c5_frame_assembly.1 3 [10, 20, 30] (fun _ => 0) 16384 (by norm_num) rfl (by norm_num),
   c5_frame_assembly.2.1 3 (by norm_num),
   c5_frame_assembly.2.2.1 [0, 0, 0] (fun _ => 0) 16384 (by norm_num),
   c5_frame_assembly.2.2.2 3 [10, 20] (fun _ => 0) 16384 (by norm_num) (by norm_num)⟩

/-- C2: when an executor splits at retry count r, the split equation shows
both branches are invoked with the parent's retry counter r (splitting does
not increment it) and each branch's outcome is a function of its own
arguments only, so retry consumption is independent; moreover a branch whose
counter is r may still consume retries until its counter reaches max_retries:
after k further transient failures it succeeds whenever r + k ≤ max_retries. -/
theorem c2_budget_independence :
    (∀ (oracle : Nat → List Value → Kwargs → Except String (List Value))
      (args : List Value) (kwargs : Kwargs) (chunk_dim : String)
      (max_retries r clock : Nat) (e : String) (items : List Value),
      oracle clock args kwargs = .error e →
      dimItems kwargs chunk_dim = some items →
      isOversized e = true → 1 < items.length →
      attemptQuery oracle args kwargs chunk_dim max_retries r clock =
        seqMerge
          (attemptQuery oracle args
            (kwUpdate kwargs chunk_dim (.vlist (splitMid items).1)) chunk_dim max_retries r)
          (attemptQuery oracle args
            (kwUpdate kwargs chunk_dim (.vlist (splitMid items).2)) chunk_dim max_retries r)
          (clock + 1)) ∧
    (∀ (oracle : Nat → List Value → Kwargs → Except String (List Value))
      (args : List Value) (kwargs : Kwargs) (chunk_dims : List String)
      (max_retries r clock : Nat) (e d : String) (items : List Value),
      oracle clock args kwargs = .error e →
      findChunkDim kwargs e chunk_dims = some (d, items) →
      attemptQCall oracle args kwargs chunk_dims max_retries r clock =
        seqMerge
          (attemptQCall oracle args
            (kwUpdate kwargs d (.vlist (splitMid items).1)) chunk_dims max_retries r)
          (attemptQCall oracle args
            (kwUpdate kwargs d (.vlist (splitMid items).2)) chunk_dims max_retries r)
          (clock + 1)) ∧
    (∀ (oracle : Nat → List Value → Kwargs → Except String (List Value))
      (args : List Value) (kwargs : Kwargs) (chunk_dim : String) (chunk_dims : List String)
      (max_retries : Nat) (v : List Value) (k : Nat) (errs : Nat → String) (r clock : Nat),
      r + k ≤ max_retries →
      (∀ j, j < k → oracle (clock + j) args kwargs = .error (errs j) ∧
        isOversized (errs j) = false) →
      oracle (clock + k) args kwargs = .ok v →
      attemptQuery oracle args kwargs chunk_dim max_retries r clock = (.ok v, clock + k + 1) ∧
      attemptQCall oracle args kwargs chunk_dims max_retries r clock = (.ok v, clock + k + 1)) := by
  refine ⟨fun oracle args kwargs chunk_dim max_retries r clock e items he hi ho hl =>
      attemptQuery_split_merge oracle args kwargs chunk_dim max_retries r clock e items
        he hi ho hl,
    fun oracle args kwargs chunk_dims max_retries r clock e d items he hfind =>
      attemptQCall_split_merge oracle args kwargs chunk_dims max_retries r clock e d items
        he hfind,
    fun oracle args kwargs chunk_dim chunk_dims max_retries v k errs r clock hbound herrs hok =>
      ⟨attemptQuery_retrySucceeds oracle args kwargs chunk_dim max_retries v k errs r clock
        hbound herrs hok,
       attemptQCall_retrySucceeds oracle args kwargs chunk_dims max_retries v k errs r clock
        hbound herrs hok⟩⟩

/-- Witness for C2: a first oversized failure splits a two-element symbols
list with both branches keeping retry count 0, and a branch that fails twice
transiently then succeeds consumes exactly its two remaining retries. -/
theorem c2_budget_independence_witness :
    attemptQuery (fun clock _ _ => if clock = 0 then .error "too big" else .ok [.vstr "r"])
      [] [("symbols", .vlist [.vstr "A", .vstr "B"])] "symbols" 2 0 0 =
      seqMerge
        (attemptQuery (fun clock _ _ => if clock = 0 then .error "too big" else .ok [.vstr "r"])
          [] (kwUpdate [("symbols", .vlist [.vstr "A", .vstr "B"])] "symbols"
            (.vlist (splitMid [.vstr "A", .vstr "B"]).1)) "symbols" 2 0)
        (attemptQuery (fun clock _ _ => if clock = 0 then .error "too big" else .ok [.vstr "r"])
          [] (kwUpdate [("symbols", .vlist [.vstr "A", .vstr "B"])] "symbols"
            (.vlist (splitMid [.vstr "A", .vstr "B"]).2)) "symbols" 2 0)
        1 ∧
    attemptQCall (fun clock _ _ => if clock = 0 then .error "too big" else .ok [.vstr "r"])
      [] [("symbols", .vlist [.vstr "A", .vstr "B"])] ["symbols"] 2 0 0 =
      seqMerge
        (attemptQCall (fun clock _ _ => if clock = 0 then .error "too big" else .ok [.vstr "r"])
          [] (kwUpdate [("symbols", .vlist [.vstr "A", .vstr "B"])] "symbols"
            (.vlist (splitMid [.vstr "A", .vstr "B"]).1)) ["symbols"] 2 0)
        (attemptQCall (fun clock _ _ => if clock = 0 then .error "too big" else .ok [.vstr "r"])
          [] (kwUpdate [("symbols", .vlist [.vstr "A", .vstr "B"])] "symbols"
            (.vlist (splitMid [.vstr "A", .vstr "B"]).2)) ["symbols"] 2 0)
        1 ∧
    (attemptQuery (fun clock _ _ => if clock < 2 then .error "flaky" else .ok [.vstr "v"])
      [] [] "symbols" 2 0 0 = (.ok [.vstr "v"], 3) ∧
     attemptQCall (fun clock _ _ => if clock < 2 then .error "flaky" else .ok [.vstr "v"])
      [] [] ["symbols"] 2 0 0 = (.ok [.vstr "v"], 3)) :=
  ⟨c2_budget_independence.1 (fun clock _ _ => if clock = 0 then .error "too big" else .ok [.vstr "r"])
      [] [("symbols", .vlist [.vstr "A", .vstr "B"])] "symbols" 2 0 0 "too big"
      [.vstr "A", .vstr "B"] rfl rfl rfl (by decide),
   c2_budget_independence.2.1 (fun clock _ _ => if clock = 0 then .error "too big" else .ok [.vstr "r"])
      [] [("symbols", .vlist [.vstr "A", .vstr "B"])] ["symbols"] 2 0 0 "too big" "symbols"
      [.vstr "A", .vstr "B"] rfl rfl,
   c2_budget_independence.2.2 (fun clock _ _ => if clock < 2 then .error "flaky" else .ok [.vstr "v"])
      [] [] "symbols" ["symbols"] 2 [.vstr "v"] 2 (fun _ => "flaky") 0 0 (by omega)
      (fun j hj => by interval_cases j <;> exact ⟨rfl, rfl⟩) rfl⟩

/-- C6: on a failed attempt the Retry2.py executor checks the policy's chunk
dimensions in declared order and splits on the first dimension that is present
in kwargs as a sequence of more than one element while the error is classified
oversized (its lowered text contains the marker); earlier dimensions do not
hold such a sequence; exactly one dimension is split per failure occurrence;
when no dimension qualifies the call falls through to the retry or fail path. -/
theorem c6_first_qualifying_dimension :
    (∀ (kw : Kwargs) (e : String) (dims : List String) (d : String) (items : List Value),
      findChunkDim kw e dims = some (d, items) →
      dimItems kw d = some items ∧ 1 < items.length ∧ isOversized e = true ∧
      ∃ pre post, dims = pre ++ d :: post ∧
        ∀ d2 ∈ pre, ¬ ∃ its, dimItems kw d2 = some its ∧ 1 < its.length) ∧
    (∀ (kw : Kwargs) (e : String) (dims : List String),
      findChunkDim kw e dims = none →
      ∀ d ∈ dims,
        ¬ (isOversized e = true ∧ ∃ its, dimItems kw d = some its ∧ 1 < its.length)) ∧
    (∀ (oracle : Nat → List Value → Kwargs → Except String (List Value))
      (args : List Value) (kwargs : Kwargs) (chunk_dims : List String)
      (max_retries retries clock : Nat) (e d : String) (items : List Value),
      oracle clock args kwargs = .error e →
      findChunkDim kwargs e chunk_dims = some (d, items) →
      attemptQCall oracle args kwargs chunk_dims max_retries retries clock =
        seqMerge
          (attemptQCall oracle args
            (kwUpdate kwargs d (.vlist (splitMid items).1)) chunk_dims max_retries retries)
          (attemptQCall oracle args
            (kwUpdate kwargs d (.vlist (splitMid items).2)) chunk_dims max_retries retries)
          (clock + 1)) ∧
    (∀ (oracle : Nat → List Value → Kwargs → Except String (List Value))
      (args : List Value) (kwargs : Kwargs) (chunk_dims : List String)
      (max_retries retries clock : Nat) (e : String),
      oracle clock args kwargs = .error e →
      findChunkDim kwargs e chunk_dims = none →
      attemptQCall oracle args kwargs chunk_dims max_retries retries clock =
        (if retries < max_retries then
          attemptQCall oracle args kwargs chunk_dims max_retries (retries + 1) (clock + 1)
        else (.error e, clock + 1))) := by
  refine ⟨?_, ?_, ?_, ?_⟩
  · intro kw e dims d items h
    obtain ⟨_, hdi, hlen, ho⟩ := findChunkDim_spec kw e dims d items h
    obtain ⟨pre, post, hdims, hpre⟩ := findChunkDim_first kw e dims d items h
    exact ⟨hdi, hlen, ho, pre, post, hdims, hpre⟩
  · intro kw e dims h d hd
    exact findChunkDim_none_spec kw e dims h d hd
  · intro oracle args kwargs chunk_dims max_retries retries clock e d items he hfind
    exact attemptQCall_split_merge oracle args kwargs chunk_dims max_retries retries clock
      e d items he hfind
  · intro oracle args kwargs chunk_dims max_retries retries clock e he hfind
    by_cases hr : retries < max_retries
    · rw [if_pos hr]
      exact attemptQCall_retry oracle args kwargs chunk_dims max_retries retries clock e
        he hfind hr
    · rw [if_neg hr]
      exact attemptQCall_fail oracle args kwargs chunk_dims max_retries retries clock e
        he hfind hr

/-- Witness for C6: with dimensions symbols (one element) then date_range (two
elements) and an oversized error, the loop skips symbols and selects
date_range; with only the one-element symbols dimension it selects nothing and
the executor retries. -/
theorem c6_first_qualifying_dimension_witness :
    (dimItems [("symbols", .vlist [.vstr "A"]), ("date_range", .vlist [.vstr "d1", .vstr "d2"])]
        "date_range" = some [.vstr "d1", .vstr "d2"] ∧
      1 < ([.vstr "d1", .vstr "d2"] : List Value).length ∧ isOversized "too big" = true ∧
      ∃ pre post, ["symbols", "date_range"] = pre ++ "date_range" :: post ∧
        ∀ d2 ∈ pre, ¬ ∃ its,
          dimItems [("symbols", .vlist [.vstr "A"]), ("date_range", .vlist [.vstr "d1", .vstr "d2"])]
            d2 = some its ∧ 1 < its.length) ∧
    (∀ d ∈ (["symbols"] : List String),
      ¬ (isOversized "too big" = true ∧ ∃ its,
        dimItems [("symbols", .vlist [.vstr "A"])] d = some its ∧ 1 < its.length)) ∧
    attemptQCall (fun clock _ _ => if clock = 0 then .error "flaky" else .ok [.vstr "r"])
      [] [("symbols", .vlist [.vstr "A"])] ["symbols"] 1 0 0 =
      (if 0 < 1 then
        attemptQCall (fun clock _ _ => if clock = 0 then .error "flaky" else .ok [.vstr "r"])
          [] [("symbols", .vlist [.vstr "A"])] ["symbols"] 1 1 1
      else (.error "flaky", 1)) :=
  ⟨c6_first_qualifying_dimension.1
      [("symbols", .vlist [.vstr "A"]), ("date_range", .vlist [.vstr "d1", .vstr "d2"])]
      "too big" ["symbols", "date_range"] "date_range" [.vstr "d1", .vstr "d2"] rfl,
   c6_first_qualifying_dimension.2.1 [("symbols", .vlist [.vstr "A"])] "too big" ["symbols"] rfl,
   c6_first_qualifying_dimension.2.2.2
      (fun clock _ _ => if clock = 0 then .error "flaky" else .ok [.vstr "r"])
      [] [("symbols", .vlist [.vstr "A"])] ["symbols"] 1 0 0 "flaky" rfl rfl⟩

/-- C7 counterexample: the claim says a transport-fatal error is never retried
by the executor and propagates immediately to the caller.  With a wrapped call
whose first invocation raises the transport-fatal header error and whose
second invocation succeeds, the executor (max_retries 1) retries and returns
the second invocation's result after two calls, so the error does not
propagate to the caller at all, let alone immediately. -/
theorem c7_counterexample :
    attemptQCall transportOracle [] [("symbols", .vlist [.vstr "A", .vstr "B"])]
      ["symbols"] 1 0 0 = (.ok [.vstr "ok"], 2) ∧
    attemptQCall transportOracle [] [("symbols", .vlist [.vstr "A", .vstr "B"])]
      ["symbols"] 1 0 0 ≠ (.error "Socket closed before header received", 1) := by
  have h1 : attemptQCall transportOracle [] [("symbols", .vlist [.vstr "A", .vstr "B"])]
      ["symbols"] 1 0 0 = (.ok [.vstr "ok"], 2) := by
    rw [attemptQCall_retry transportOracle [] [("symbols", .vlist [.vstr "A", .vstr "B"])]
      ["symbols"] 1 0 0 "Socket closed before header received" rfl rfl (by omega)]
    exact attemptQCall_ok transportOracle [] [("symbols", .vlist [.vstr "A", .vstr "B"])]
      ["symbols"] 1 1 1 [.vstr "ok"] rfl
  refine ⟨h1, ?_⟩
  intro h2
  rw [h1] at h2
  exact absurd (congrArg Prod.snd h2) (by decide)

/-- C7 amended: a transport-fatal error (connection closed before the header
or before the declared payload length was read) is never split by the
executor, because its message never matches the oversized marker; the
transport layer itself does not retry it; the executor, however, treats it
like any transient failure: it is retried while retry budget remains and then
propagated to the caller unchanged. -/
theorem c7_transport_fatal_amended :
    isOversized "Socket closed before header received" = false ∧
    isOversized "Socket closed before full data received" = false ∧
    (∀ (kw : Kwargs) (dims : List String) (e : String), isOversized e = false →
      findChunkDim kw e dims = none) ∧
    (∀ (oracle : Nat → List Value → Kwargs → Except String (List Value))
      (args : List Value) (kwargs : Kwargs) (chunk_dims : List String)
      (max_retries clock : Nat) (e : String),
      (∀ c, oracle c args kwargs = .error e) → isOversized e = false →
      attemptQCall oracle args kwargs chunk_dims max_retries 0 clock =
        (.error e, clock + max_retries + 1)) := by
  refine ⟨rfl, rfl, fun kw dims e ho => findChunkDim_not_oversized kw e dims ho,
    fun oracle args kwargs chunk_dims max_retries clock e hf ho => ?_⟩
  have h := attemptQCall_allFail oracle args kwargs chunk_dims max_retries e hf ho
    (max_retries - 0) 0 clock rfl
  simpa using h

/-- Witness for C7 amended: an always transport-fatal call with budget 1 is
attempted twice and the error then propagates unchanged. -/
theorem c7_transport_fatal_amended_witness :
    findChunkDim [("symbols", .vlist [.vstr "A", .vstr "B"])]
      "Socket closed before header received" ["symbols"] = none ∧
    attemptQCall (fun _ _ _ => .error "Socket closed before header received")
      [] [("symbols", .vlist [.vstr "A", .vstr "B"])] ["symbols"] 1 0 0 =
      (.error "Socket closed before header received", 2) :=
  ⟨c7_transport_fatal_amended.2.2.1 [("symbols", .vlist [.vstr "A", .vstr "B"])]
      ["symbols"] "Socket closed before header received" rfl,
   c7_transport_fatal_amended.2.2.2 (fun _ _ _ => .error "Socket closed before header received")
      [] [("symbols", .vlist [.vstr "A", .vstr "B"])] ["symbols"] 1 0
      "Socket closed before header received" (fun _ => rfl) rfl⟩

/-- C8: a split on dimension d passes the same wrapped function (oracle) and
the same positional arguments to both branches, and each child
keyword-argument snapshot is the parent's dictionary updated at d only: the
lookup of every other key is unchanged, and d holds the left or right half
respectively. -/
theorem c8_frame_effect :
    (∀ (kw : Kwargs) (d : String) (v : Value) (k2 : String), k2 ≠ d →
      kwLookup (kwUpdate kw d v) k2 = kwLookup kw k2) ∧
    (∀ (kw : Kwargs) (d : String) (v : Value),
      kwLookup (kwUpdate kw d v) d = some v) ∧
    (∀ (oracle : Nat → List Value → Kwargs → Except String (List Value))
      (args : List Value) (kwargs : Kwargs) (chunk_dim : String)
      (max_retries retries clock : Nat) (e : String) (items : List Value),
      oracle clock args kwargs = .error e →
      dimItems kwargs chunk_dim = some items →
      isOversized e = true → 1 < items.length →
      attemptQuery oracle args kwargs chunk_dim max_retries retries clock =
        seqMerge
          (attemptQuery oracle args
            (kwUpdate kwargs chunk_dim (.vlist (splitMid items).1)) chunk_dim max_retries retries)
          (attemptQuery oracle args
            (kwUpdate kwargs chunk_dim (.vlist (splitMid items).2)) chunk_dim max_retries retries)
          (clock + 1)) ∧
    (∀ (oracle : Nat → List Value → Kwargs → Except String (List Value))
      (args : List Value) (kwargs : Kwargs) (chunk_dims : List String)
      (max_retries retries clock : Nat) (e d : String) (items : List Value),
      oracle clock args kwargs = .error e →
      findChunkDim kwargs e chunk_dims = some (d, items) →
      attemptQCall oracle args kwargs chunk_dims max_retries retries clock =
        seqMerge
          (attemptQCall oracle args
            (kwUpdate kwargs d (.vlist (splitMid items).1)) chunk_dims max_retries retries)
          (attemptQCall oracle args
            (kwUpdate kwargs d (.vlist (splitMid items).2)) chunk_dims max_retries retries)
          (clock + 1)) :=
  ⟨fun kw d v k2 hne => kwLookup_kwUpdate_ne kw d k2 v hne,
   fun kw d v => kwLookup_kwUpdate_self kw d v,
   fun oracle args kwargs chunk_dim max_retries retries clock e items he hi ho hl =>
     attemptQuery_split_merge oracle args kwargs chunk_dim max_retries retries clock e items
       he hi ho hl,
   fun oracle args kwargs chunk_dims max_retries retries clock e d items he hfind =>
     attemptQCall_split_merge oracle args kwargs chunk_dims max_retries retries clock e d items
       he hfind⟩

/-- Witness for C8: updating symbols leaves the start_date entry unchanged and
replaces symbols; the split equation holds at a concrete first failure. -/
theorem c8_frame_effect_witness :
    kwLookup (kwUpdate [("symbols", .vlist [.vstr "A", .vstr "B"]), ("start_date", .vstr "2025-01-01")]
      "symbols" (.vlist [.vstr "A"])) "start_date" =
      kwLookup [("symbols", .vlist [.vstr "A", .vstr "B"]), ("start_date", .vstr "2025-01-01")]
        "start_date" ∧
    kwLookup (kwUpdate [("symbols", .vlist [.vstr "A", .vstr "B"]), ("start_date", .vstr "2025-01-01")]
      "symbols" (.vlist [.vstr "A"])) "symbols" = some (.vlist [.vstr "A"]) ∧
    attemptQuery (fun clock _ _ => if clock = 0 then .error "too big" else .ok [.vstr "r"])
      [.vstr "pos"] [("symbols", .vlist [.vstr "A", .vstr "B"])] "symbols" 2 0 0 =
      seqMerge
        (attemptQuery (fun clock _ _ => if clock = 0 then .error "too big" else .ok [.vstr "r"])
          [.vstr "pos"] (kwUpdate [("symbols", .vlist [.vstr "A", .vstr "B"])] "symbols"
            (.vlist (splitMid [.vstr "A", .vstr "B"]).1)) "symbols" 2 0)
        (attemptQuery (fun clock _ _ => if clock = 0 then .error "too big" else .ok [.vstr "r"])
          [.vstr "pos"] (kwUpdate [("symbols", .vlist [.vstr "A", .vstr "B"])] "symbols"
            (.vlist (splitMid [.vstr "A", .vstr "B"]).2)) "symbols" 2 0)
        1 :=
  ⟨c8_frame_effect.1 [("symbols", .vlist [.vstr "A", .vstr "B"]), ("start_date", .vstr "2025-01-01")]
      "symbols" (.vlist [.vstr "A"]) "start_date" (by decide),
   c8_frame_effect.2.1 [("symbols", .vlist [.vstr "A", .vstr "B"]), ("start_date", .vstr "2025-01-01")]
      "symbols" (.vlist [.vstr "A"]),
   c8_frame_effect.2.2.1 (fun clock _ _ => if clock = 0 then .error "too big" else .ok [.vstr "r"])
      [.vstr "pos"] [("symbols", .vlist [.vstr "A", .vstr "B"])] "symbols" 2 0 0 "too big"
      [.vstr "A", .vstr "B"] rfl rfl rfl (by decide)⟩

/-- C9: for the six symbols AAPL GOOG MSFT AMZN FB TSLA with chunk dimension
symbols and max_retries 2, against the simulated store that rejects symbol
lists longer than 3, the executor performs exactly one top-level split into
the two 3-element halves (total clock 3: one failing parent call, then one
successful call per half, so no further split and no retry), and the result
is the left half's records followed by the right half's records. -/
theorem c9_end_to_end :
    run_query [] kwargsSix 0 =
      (.ok ((symbolsSix.take 3).map recordOf ++ (symbolsSix.drop 3).map recordOf), 3) ∧
    attemptQuery runQueryInner [] (kwUpdate kwargsSix "symbols" (.vlist (symbolsSix.take 3)))
      "symbols" 2 0 1 = (.ok ((symbolsSix.take 3).map recordOf), 2) ∧
    attemptQuery runQueryInner [] (kwUpdate kwargsSix "symbols" (.vlist (symbolsSix.drop 3)))
      "symbols" 2 0 2 = (.ok ((symbolsSix.drop 3).map recordOf), 3) ∧
    symbolsSix.take 3 = [.vstr "AAPL", .vstr "GOOG", .vstr "MSFT"] ∧
    symbolsSix.drop 3 = [.vstr "AMZN", .vstr "FB", .vstr "TSLA"] := by
  have hL : attemptQuery runQueryInner []
      (kwUpdate kwargsSix "symbols" (.vlist (symbolsSix.take 3))) "symbols" 2 0 1 =
      (.ok ((symbolsSix.take 3).map recordOf), 2) :=
    attemptQuery_ok runQueryInner [] _ "symbols" 2 0 1 _ rfl
  have hR : attemptQuery runQueryInner []
      (kwUpdate kwargsSix "symbols" (.vlist (symbolsSix.drop 3))) "symbols" 2 0 2 =
      (.ok ((symbolsSix.drop 3).map recordOf), 3) :=
    attemptQuery_ok runQueryInner [] _ "symbols" 2 0 2 _ rfl
  refine ⟨?_, hL, hR, rfl, rfl⟩
  have hsplit := attemptQuery_split runQueryInner [] kwargsSix "symbols" 2 0 0
    "Query too big" symbolsSix rfl rfl rfl (by decide)
  rw [run_query, hsplit]
  have e1 : (splitMid symbolsSix).1 = symbolsSix.take 3 := rfl
  have e2 : (splitMid symbolsSix).2 = symbolsSix.drop 3 := rfl
  rw [e1, e2, hL]
  dsimp only
  rw [hR]

/-- C10: the recursion of both executors terminates: with fuel given by the
termination measure (the length of the splittable dimension — summed over the
declared dimensions for Retry2.py — times max_retries + 1, plus the remaining
retry budget, plus one), the fuel-indexed executor completes and agrees with
the executor, for every oracle, arguments and starting state.  The measure
strictly decreases on every recursive call: a retry increments the retry
counter, which is bounded by max_retries, and a split strictly shortens the
split dimension's sequence. -/
theorem c10_termination :
    (∀ (oracle : Nat → List Value → Kwargs → Except String (List Value))
      (args : List Value) (kwargs : Kwargs) (chunk_dim : String)
      (max_retries retries clock : Nat),
      attemptQueryFuel
        (dimLen kwargs chunk_dim * (max_retries + 1) + (max_retries - retries) + 1)
        oracle args kwargs chunk_dim max_retries retries clock =
        some (attemptQuery oracle args kwargs chunk_dim max_retries retries clock)) ∧
    (∀ (oracle : Nat → List Value → Kwargs → Except String (List Value))
      (args : List Value) (kwargs : Kwargs) (chunk_dims : List String)
      (max_retries retries clock : Nat),
      attemptQCallFuel
        (sumLen kwargs chunk_dims * (max_retries + 1) + (max_retries - retries) + 1)
        oracle args kwargs chunk_dims max_retries retries clock =
        some (attemptQCall oracle args kwargs chunk_dims max_retries retries clock)) :=
  ⟨fun oracle args kwargs chunk_dim max_retries retries clock =>
    attemptQueryFuel_eq oracle args chunk_dim max_retries
      (dimLen kwargs chunk_dim * (max_retries + 1) + (max_retries - retries))
      kwargs retries clock _ rfl (by omega),
   fun oracle args kwargs chunk_dims max_retries retries clock =>
    attemptQCallFuel_eq oracle args chunk_dims max_retries
      (sumLen kwargs chunk_dims * (max_retries + 1) + (max_retries - retries))
      kwargs retries clock _ rfl (by omega)⟩
